import Mathlib

/-!
Verification development for the Plexify media-library Discord bot,
a shallow embedding of src/plex_discord_bot.py.

Modelling conventions.

Strings are Lean String values; Python len(s) is String.length (both count
unicode code points).  Python set objects of keys are Finset String.  The
lower() method on strings is modelled per character (pyLower), and the
strip() truthiness test is modelled by an explicit both-ends whitespace
trim (pyStrip).  The stable Python sorted(..., key=title.lower()) is
modelled by the stable insertion sort List.insertionSort over the
code-point lexicographic order on the lowered title; a stable sort is
extensionally unique, so this coincides with the sort used by the source.

Network interaction with the chat service is modelled by an environment
oracle env : Nat -> OpRes giving the outcome of the n-th chat call of a
cycle (send, edit or delete), where the outcome distinguishes success,
a discord.Forbidden error, and any other exception, because those are the
exception classes the source catches separately.  Every chat call emits an
Effect recording the call and its payload; a failed call is still a call,
so it also emits its Effect.  A message handle returned by a successful
send is modelled as the index of the call that produced it, which is
therefore fresh, paired with the author.  The plex queries of
get_library_content are modelled by a FetchResult value describing how far
the two section queries got before an exception, if any, was raised.
-/

/-- Outcome of one chat-service call, decided by the environment: success,
a discord.Forbidden error, or any other exception (discord.HTTPException
or a general Exception).  These are exactly the classes the source
distinguishes in its except clauses. -/
inductive OpRes where
  | ok
  | forbidden
  | otherErr
deriving DecidableEq

/-- One normalized library entry, the dictionary built by
get_library_content (lines 101-107 and 110-116 of the source):
key, title, year, type (the icon glyph) and category. -/
structure CatalogItem where
  key : String
  title : String
  year : String
  type : String
  category : String
deriving DecidableEq

/-- Raw data of one entry of a plex section, before normalization:
the numeric ratingKey, the title, and the optional release year. -/
structure PlexEntry where
  ratingKey : Nat
  title : String
  year : Option Nat
deriving DecidableEq

/-- The Python expression movie.year or Unknown-string: a missing (None)
or falsy (0) year becomes the explicit Unknown marker; the year is later
interpolated into text, so it is kept here as its rendered string. -/
def pyYear : Option Nat → String
  | none => "Unknown"
  | some y => if y = 0 then "Unknown" else toString y

/-- Normalization of one movie entry (source lines 101-107):
the key is category-prefixed with movie_. -/
def mkMovieItem (e : PlexEntry) : CatalogItem :=
  { key := "movie_" ++ toString e.ratingKey, title := e.title, year := pyYear e.year,
    type := "🎬", category := "Movies" }

/-- Normalization of one show entry (source lines 110-116):
the key is category-prefixed with show_. -/
def mkShowItem (e : PlexEntry) : CatalogItem :=
  { key := "show_" ++ toString e.ratingKey, title := e.title, year := pyYear e.year,
    type := "📺", category := "TV Shows" }

/-- How far the two plex section queries of get_library_content get:
the movies query raises at once, the TV query raises after the movies
loop appended its items, or both succeed. -/
inductive FetchResult where
  | errMovies
  | errShows (movies : List PlexEntry)
  | ok (movies shows : List PlexEntry)
deriving DecidableEq

/-- get_library_content (source lines 96-119): items are appended to the
content list; any exception is caught internally and logged, and the list
accumulated so far, possibly empty, is returned.  The caller cannot tell
a failed fetch from an empty library. -/
def get_library_content : FetchResult → List CatalogItem
  | FetchResult.errMovies => []
  | FetchResult.errShows ms => ms.map mkMovieItem
  | FetchResult.ok ms ss => ms.map mkMovieItem ++ ss.map mkShowItem

/-- The key projection set(item[key] for item in content)
(source lines 66 and 83). -/
def keysOf (content : List CatalogItem) : Finset String :=
  (content.map (fun i => i.key)).toFinset

/-- The delta expression shared verbatim by both triggers (source lines 67
and 84): current_titles - last_known_content if last_known_content else
set().  The Python conditional keys on the truthiness (nonemptiness) of
the previous set. -/
def computeDelta (prev current : Finset String) : Finset String :=
  if prev.Nonempty then current \ prev else ∅

/-- Per-character lowercasing, the model of the Python lower() method. -/
def pyLower (s : String) : String := String.mk (s.data.map Char.toLower)

/-- Code-point lexicographic comparison of character lists, the order
Python uses to compare strings. -/
def lexLe : List Char → List Char → Bool
  | [], _ => true
  | _ :: _, [] => false
  | a :: as, b :: bs => if a = b then lexLe as bs else decide (a < b)

/-- The sort key relation of post_complete_library (source lines 138-141):
compare items by the lowercased title. -/
def titleLe (a b : CatalogItem) : Prop :=
  lexLe (pyLower a.title).data (pyLower b.title).data = true

instance : DecidableRel titleLe := fun a b => by unfold titleLe; infer_instance

/-- sorted(items, key=lambda x: x[title].lower()): Python sorted is
stable, and a stable sort is extensionally unique, so the stable
insertion sort is a faithful model. -/
def sortByTitle (l : List CatalogItem) : List CatalogItem :=
  List.insertionSort titleLe l

/-- The sorted Movies partition built by post_complete_library
(source lines 138-139). -/
def moviesOf (content : List CatalogItem) : List CatalogItem :=
  sortByTitle (content.filter (fun i => i.category = "Movies"))

/-- The sorted TV Shows partition built by post_complete_library
(source lines 140-141). -/
def showsOf (content : List CatalogItem) : List CatalogItem :=
  sortByTitle (content.filter (fun i => i.category = "TV Shows"))

/-- The section heading that seeds every list message
(source line 178). -/
def headerOf (title : String) : String := "## " ++ title ++ "\n\n"

/-- The marker expression of source line 180: the new marker if the key of
the item is in the new set, the empty string otherwise.  A None argument
of post_markdown_list behaves as the empty set, so the parameter is the
set itself. -/
def markerOf (new_items : Finset String) (i : CatalogItem) : String :=
  if i.key ∈ new_items then "🆕 " else ""

/-- The rendered line of one item (source line 181). -/
def lineOf (new_items : Finset String) (i : CatalogItem) : String :=
  "• " ++ markerOf new_items i ++ i.title ++ " (" ++ i.year ++ ")\n"

/-- Python strip(): drop whitespace from both ends.  Used only for the
truthiness test current_message.strip() of source line 194. -/
def pyStrip (s : String) : String :=
  String.mk (((s.data.dropWhile Char.isWhitespace).reverse.dropWhile
    Char.isWhitespace).reverse)

/-- The chunking loop of post_markdown_list (source lines 178-198), with
the sends abstracted away: the running block starts as the heading; before
a line is appended, if the running block plus the line measures over 1900
the running block is emitted and the line starts a new block; at the end
the final block is emitted when it is nonblank and is not the bare
heading. -/
def chunkLines (hdr : String) : String → List String → List String
  | cur, [] => if pyStrip cur ≠ "" ∧ cur ≠ hdr then [cur] else []
  | cur, l :: ls =>
    if (cur ++ l).length > 1900 then cur :: chunkLines hdr l ls
    else chunkLines hdr (cur ++ l) ls

/-- The block sequence post_markdown_list sends for an item list: the
chunking loop run over the rendered lines, seeded with the heading. -/
def post_markdown_blocks (items : List CatalogItem) (title : String)
    (new_items : Finset String) : List String :=
  chunkLines (headerOf title) (headerOf title) (items.map (lineOf new_items))

/-- Concatenation of a list of strings (no separator). -/
def joinS : List String → String
  | [] => ""
  | s :: ss => s ++ joinS ss

/-- Reassembly view of a block list: the first emitted block is the
running prefix (heading or carried line) followed by a group of whole
lines, and every further block is a group of whole lines.  Witnessing
blocks in this shape is what no-line-is-split means. -/
def assemble (first : String) : List (List String) → List String
  | [] => []
  | g :: gs => (first ++ joinS g) :: gs.map joinS

/-- A chat message handle: the id is the index of the send call that
produced it (hence fresh), the author is the posting user. -/
structure Msg where
  id : Nat
  author : Nat
deriving DecidableEq

/-- One chat-service call with its payload: a message delete, the header
embed send (description plus the recently-added lines), a text send, or
an edit of an existing message. -/
inductive Effect where
  | deleteMsg (mid : Nat)
  | sendEmbed (description : String) (recent : List String)
  | sendText (content : String)
  | editMsg (mid : Nat) (content : String)
deriving DecidableEq

/-- The mutable state of the bot singleton: last_known_content (KnownState,
the retained key set) and library_messages (PublishedMessageSet, the
retained message handles). -/
structure BotState where
  last_known_content : Finset String
  library_messages : List Msg
deriving DecidableEq

/-- Result of a post_markdown_list call: the chat calls it made, the
handles it appended to library_messages, the next call index, and whether
it terminated by re-raising an exception (only a non-Forbidden send error
propagates; Forbidden is caught inside). -/
structure SendRun where
  effects : List Effect
  msgs : List Msg
  next : Nat
  raised : Bool
deriving DecidableEq

/-- Result of clear_old_messages or post_complete_library: the chat calls
made, the new library_messages value, and the next call index.  Neither
function lets an exception escape, so no raised flag is needed. -/
structure PubRes where
  effects : List Effect
  msgs : List Msg
  next : Nat
deriving DecidableEq

/-- Result of one trigger entry point (timer cycle or manual command):
the chat calls made, the new bot state, and the next call index. -/
structure CycleRes where
  effects : List Effect
  state : BotState
  next : Nat
deriving DecidableEq

/-- clear_old_messages (source lines 121-133).  Each retained handle is
visited; a delete call is issued only when the author of the message is
the bot user u, other handles are merely logged; the delete sits in a
per-message try whose except clauses catch discord.Forbidden and any
other exception and only log, so whatever outcome env reports, the loop
continues with the next handle.  The final line of the source resets
library_messages to the empty list. -/
def clear_old_messages (u : Nat) (env : Nat → OpRes) : List Msg → Nat → PubRes
  | [], k => ⟨[], [], k⟩
  | m :: ms, k =>
    if m.author = u then
      match env k with
      | OpRes.ok =>
        let r := clear_old_messages u env ms (k + 1)
        ⟨Effect.deleteMsg m.id :: r.effects, r.msgs, r.next⟩
      | OpRes.forbidden =>
        let r := clear_old_messages u env ms (k + 1)
        ⟨Effect.deleteMsg m.id :: r.effects, r.msgs, r.next⟩
      | OpRes.otherErr =>
        let r := clear_old_messages u env ms (k + 1)
        ⟨Effect.deleteMsg m.id :: r.effects, r.msgs, r.next⟩
    else
      clear_old_messages u env ms k

/-- The sending loop of post_markdown_list (source lines 177-200).  A
mid-loop flush sends the running block: on success the handle is appended
and the loop continues seeded with the pending line; on Forbidden the
function logs and returns (raised = false, remaining items dropped); on
any other exception the error propagates (raised = true).  After the loop
the final block, when nonblank and distinct from the bare heading, is
sent under the same try discipline, except that a Forbidden there merely
falls off the end of the function. -/
def pml_loop (u : Nat) (env : Nat → OpRes) (new_items : Finset String)
    (hdr : String) : List CatalogItem → String → Nat → SendRun
  | [], cur, k =>
    if pyStrip cur ≠ "" ∧ cur ≠ hdr then
      match env k with
      | OpRes.ok => ⟨[Effect.sendText cur], [⟨k, u⟩], k + 1, false⟩
      | OpRes.forbidden => ⟨[Effect.sendText cur], [], k + 1, false⟩
      | OpRes.otherErr => ⟨[Effect.sendText cur], [], k + 1, true⟩
    else ⟨[], [], k, false⟩
  | i :: rest, cur, k =>
    if (cur ++ lineOf new_items i).length > 1900 then
      match env k with
      | OpRes.ok =>
        let r := pml_loop u env new_items hdr rest (lineOf new_items i) (k + 1)
        ⟨Effect.sendText cur :: r.effects, ⟨k, u⟩ :: r.msgs, r.next, r.raised⟩
      | OpRes.forbidden => ⟨[Effect.sendText cur], [], k + 1, false⟩
      | OpRes.otherErr => ⟨[Effect.sendText cur], [], k + 1, true⟩
    else
      pml_loop u env new_items hdr rest (cur ++ lineOf new_items i) k

/-- post_markdown_list (source lines 177-200): the loop seeded with the
section heading. -/
def post_markdown_list (u : Nat) (env : Nat → OpRes) (items : List CatalogItem)
    (title : String) (new_items : Finset String) (k : Nat) : SendRun :=
  pml_loop u env new_items (headerOf title) items (headerOf title) k

/-- The guarded category send of post_complete_library (source lines
168-171): post_markdown_list runs only when the partition is nonempty
(Python truthiness of the list); an empty partition contributes nothing
and keeps the call counter unchanged. -/
def listRun (u : Nat) (env : Nat → OpRes) (new_items : Finset String)
    (items : List CatalogItem) (title : String) (k0 : Nat) : SendRun :=
  if items.isEmpty then ⟨[], [], k0, false⟩
  else post_markdown_list u env items title new_items k0

/-- The description line of the header embed (source line 145). -/
def embedDesc (movies shows : List CatalogItem) : String :=
  "**Movies:** " ++ toString movies.length ++ " | **TV Shows:** " ++ toString shows.length

/-- The recently-added field of the header embed (source lines 150-160):
present only when the delta is nonempty, listing the first ten delta
items. -/
def recentLines (content : List CatalogItem) (new_items : Finset String) : List String :=
  if new_items.Nonempty then
    ((content.filter (fun i => decide (i.key ∈ new_items))).take 10).map
      (fun i => i.type ++ " " ++ i.title ++ " (" ++ i.year ++ ")")
  else []

/-- post_complete_library (source lines 135-175).  Inside one try: clear
the old messages (never raises), partition and sort, send the header
embed and retain its handle, then post the movies list and the shows
list when nonempty.  A failure of the header send, or a non-Forbidden
error re-raised by a list send, is caught by the enclosing except
clauses, which only log: the function aborts the remaining sends but
never lets the exception escape, and the handles appended so far stay
retained. -/
def post_complete_library (u : Nat) (env : Nat → OpRes) (st : BotState)
    (content : List CatalogItem) (new_items : Finset String) (k : Nat) : PubRes :=
  let c := clear_old_messages u env st.library_messages k
  let movies := moviesOf content
  let shows := showsOf content
  let base := c.effects ++
    [Effect.sendEmbed (embedDesc movies shows) (recentLines content new_items)]
  match env c.next with
  | OpRes.ok =>
    let hdrMsg : Msg := ⟨c.next, u⟩
    let runM := listRun u env new_items movies "🎬 Movies" (c.next + 1)
    if runM.raised then
      ⟨base ++ runM.effects, hdrMsg :: runM.msgs, runM.next⟩
    else
      let runS := listRun u env new_items shows "📺 TV Shows" runM.next
      ⟨base ++ runM.effects ++ runS.effects, hdrMsg :: (runM.msgs ++ runS.msgs), runS.next⟩
  | OpRes.forbidden => ⟨base, [], c.next + 1⟩
  | OpRes.otherErr => ⟨base, [], c.next + 1⟩

/-- update_library, the timer trigger (source lines 78-94): fetch (fetch
errors are swallowed inside get_library_content), project keys, compute
the delta, publish only when the delta is nonempty, and in every case
replace last_known_content with the freshly fetched key set.  The except
clauses of update_library are unreachable because every callee catches
its own exceptions. -/
def update_library (u : Nat) (env : Nat → OpRes) (fetch : FetchResult)
    (st : BotState) (k : Nat) : CycleRes :=
  let content := get_library_content fetch
  let current_titles := keysOf content
  let new_items := computeDelta st.last_known_content current_titles
  if new_items.Nonempty then
    let p := post_complete_library u env st content new_items k
    ⟨p.effects, ⟨current_titles, p.msgs⟩, p.next⟩
  else
    ⟨[], ⟨current_titles, st.library_messages⟩, k⟩

/-- An inbound chat event as on_message sees it: the text, the author id,
the author bot flag, and the channel id. -/
structure Incoming where
  content : String
  authorId : Nat
  authorIsBot : Bool
  channelId : Nat
deriving DecidableEq

/-- Acknowledgment text sent when a manual sync starts (source line 64). -/
def syncAck : String := "🔄 Syncing Plex library..."

/-- Completion text the acknowledgment is edited to (source line 70). -/
def syncDone : String := "✅ Library synced successfully!"

/-- Error reply on a Forbidden failure of the manual path (source line 73). -/
def syncPermErr : String := "❌ Missing permissions"

/-- Error reply on any other failure of the manual path (source line 76). -/
def syncGenErr : String := "❌ Error syncing library"

/-- on_message, the manual trigger (source lines 56-76): ignore own and
bot messages and other channels; on a case-insensitive match of one of
the three commands, send the acknowledgment, run the full
fetch-diff-publish sequence unconditionally, replace
last_known_content, and edit the acknowledgment to the completion text.
A Forbidden or other exception from the acknowledgment send or the edit
is caught and answered with an error reply; post_complete_library never
raises. -/
def on_message (u chan : Nat) (env : Nat → OpRes) (fetch : FetchResult)
    (st : BotState) (m : Incoming) (k : Nat) : CycleRes :=
  if m.authorId = u ∨ m.authorIsBot then ⟨[], st, k⟩
  else if m.channelId ≠ chan then ⟨[], st, k⟩
  else if pyLower m.content ∈ (["!sync", "!update", "!refresh"] : List String) then
    match env k with
    | OpRes.ok =>
      let content := get_library_content fetch
      let current_titles := keysOf content
      let new_items := computeDelta st.last_known_content current_titles
      let p := post_complete_library u env st content new_items (k + 1)
      match env p.next with
      | OpRes.ok =>
        ⟨Effect.sendText syncAck :: (p.effects ++ [Effect.editMsg k syncDone]),
         ⟨current_titles, p.msgs⟩, p.next + 1⟩
      | OpRes.forbidden =>
        ⟨Effect.sendText syncAck ::
           (p.effects ++ [Effect.editMsg k syncDone, Effect.sendText syncPermErr]),
         ⟨current_titles, p.msgs⟩, p.next + 2⟩
      | OpRes.otherErr =>
        ⟨Effect.sendText syncAck ::
           (p.effects ++ [Effect.editMsg k syncDone, Effect.sendText syncGenErr]),
         ⟨current_titles, p.msgs⟩, p.next + 2⟩
    | OpRes.forbidden => ⟨[Effect.sendText syncAck, Effect.sendText syncPermErr], st, k + 2⟩
    | OpRes.otherErr => ⟨[Effect.sendText syncAck, Effect.sendText syncGenErr], st, k + 2⟩
  else ⟨[], st, k⟩

/-- A string with at least one non-whitespace character; such a string
survives pyStrip, so its truthiness test passes. -/
def hasInk (s : String) : Prop := ∃ c ∈ s.data, c.isWhitespace = false

instance : DecidablePred hasInk := fun s => by unfold hasInk; infer_instance

/-- Oversized sample title for the block-size counterexample. -/
def longTitle : String := String.mk (List.replicate 2100 'a')

/-- Sample item whose rendered line measures over the transport hard
limit on its own. -/
def bigItem : CatalogItem :=
  { key := "movie_1", title := longTitle, year := "2001", type := "🎬", category := "Movies" }

/-- Small sample movie used to instantiate hypotheses in witnesses. -/
def sampleMovie : CatalogItem :=
  { key := "movie_2", title := "Beta", year := "2001", type := "🎬", category := "Movies" }

/-- Second sample movie, with a lowercase title sorting first. -/
def sampleMovie2 : CatalogItem :=
  { key := "movie_9", title := "alpha", year := "1999", type := "🎬", category := "Movies" }

/-- Small sample show used to instantiate hypotheses in witnesses. -/
def sampleShow : CatalogItem :=
  { key := "show_3", title := "Gamma", year := "1999", type := "📺", category := "TV Shows" }

/-- Strictly good running block for the chunking loop: it has visible ink
and either starts with the bullet character or is strictly longer than
the heading; either way it is distinct from the bare heading, so the
final flush test of source line 194 passes. -/
def goodCurS (hdr cur : String) : Prop :=
  hasInk cur ∧ (cur.data.head? = some '•' ∨ hdr.length < cur.length)


section Lemmas

theorem lexLe_total : ∀ as bs : List Char, lexLe as bs = true ∨ lexLe bs as = true := by
  intro as
  induction as with
  | nil => intro bs; left; rfl
  | cons a as ih =>
    intro bs
    cases bs with
    | nil => right; rfl
    | cons b bs =>
      by_cases hab : a = b
      · subst hab
        simp only [lexLe, if_pos rfl]
        exact ih bs
      · rcases lt_or_gt_of_ne hab with h | h
        · left
          simp only [lexLe, if_neg hab]
          exact decide_eq_true h
        · right
          simp only [lexLe, if_neg (Ne.symm hab)]
          exact decide_eq_true h

theorem lexLe_trans :
    ∀ as bs cs : List Char, lexLe as bs = true → lexLe bs cs = true → lexLe as cs = true := by
  intro as
  induction as with
  | nil => intro bs cs _ _; rfl
  | cons a as ih =>
    intro bs cs h1 h2
    cases bs with
    | nil => simp [lexLe] at h1
    | cons b bs =>
      cases cs with
      | nil => simp [lexLe] at h2
      | cons c cs =>
        by_cases hab : a = b <;> by_cases hbc : b = c
        · subst hab; subst hbc
          simp only [lexLe, if_pos rfl] at h1 h2 ⊢
          exact ih bs cs h1 h2
        · subst hab
          simp only [lexLe, if_pos rfl] at h1
          simp only [lexLe, if_neg hbc] at h2 ⊢
          exact h2
        · subst hbc
          simp only [lexLe, if_neg hab] at h1
          simp only [lexLe, if_neg hab]
          exact h1
        · simp only [lexLe, if_neg hab] at h1
          simp only [lexLe, if_neg hbc] at h2
          have hac : a < c := lt_trans (of_decide_eq_true h1) (of_decide_eq_true h2)
          simp only [lexLe, if_neg (ne_of_lt hac)]
          exact decide_eq_true hac

instance : IsTotal CatalogItem titleLe :=
  ⟨fun a b => lexLe_total (pyLower a.title).data (pyLower b.title).data⟩

instance : IsTrans CatalogItem titleLe :=
  ⟨fun a b c => lexLe_trans (pyLower a.title).data (pyLower b.title).data
    (pyLower c.title).data⟩

end Lemmas

theorem data_eq_nil_iff (s : String) : s.data = [] ↔ s = "" := by
  constructor
  · intro h; exact String.ext h
  · intro h; subst h; rfl

theorem length_pos_of_ne_empty {s : String} (h : s ≠ "") : 0 < s.length := by
  rcases Nat.eq_zero_or_pos s.length with h0 | h0
  · exfalso
    apply h
    apply String.ext
    have : s.data.length = 0 := h0
    exact List.length_eq_zero.mp this
  · exact h0

theorem mem_dropWhile_of_not {α : Type} (p : α → Bool) :
    ∀ (l : List α) (c : α), c ∈ l → p c = false → c ∈ l.dropWhile p := by
  intro l
  induction l with
  | nil => intro c hc _; cases hc
  | cons a as ih =>
    intro c hc hp
    rw [List.dropWhile_cons]
    by_cases hpa : p a = true
    · rw [if_pos hpa]
      rcases List.mem_cons.mp hc with h | h
      · subst h; rw [hpa] at hp; cases hp
      · exact ih c h hp
    · rw [if_neg hpa]
      exact hc

theorem pyStrip_ne_empty {s : String} (h : hasInk s) : pyStrip s ≠ "" := by
  rcases h with ⟨c, hcmem, hw⟩
  intro heq
  have hdata : (((s.data.dropWhile Char.isWhitespace).reverse.dropWhile
      Char.isWhitespace).reverse) = [] := congrArg String.data heq
  rw [List.reverse_eq_nil_iff, List.dropWhile_eq_nil_iff] at hdata
  have h1 : c ∈ s.data.dropWhile Char.isWhitespace :=
    mem_dropWhile_of_not Char.isWhitespace s.data c hcmem hw
  have h2 : c ∈ (s.data.dropWhile Char.isWhitespace).reverse := by simpa using h1
  have := hdata c h2
  rw [hw] at this
  cases this

theorem hasInk_append_left {s : String} (t : String) (h : hasInk s) : hasInk (s ++ t) := by
  rcases h with ⟨c, hc, hw⟩
  exact ⟨c, by rw [String.data_append]; exact List.mem_append_left _ hc, hw⟩

theorem hasInk_append_right (s : String) {t : String} (h : hasInk t) : hasInk (s ++ t) := by
  rcases h with ⟨c, hc, hw⟩
  exact ⟨c, by rw [String.data_append]; exact List.mem_append_right _ hc, hw⟩

theorem hasInk_of_head {s : String} {c : Char} (h : s.data.head? = some c)
    (hc : c.isWhitespace = false) : hasInk s := by
  refine ⟨c, ?_, hc⟩
  cases hd : s.data with
  | nil => rw [hd] at h; cases h
  | cons a l =>
    rw [hd] at h
    have : a = c := by simpa using h
    subst this
    exact List.mem_cons_self a l

theorem head_append {s t : String} {c : Char} (h : s.data.head? = some c) :
    (s ++ t).data.head? = some c := by
  rw [String.data_append, List.head?_append, h]
  rfl

theorem ne_of_heads {s t : String} {a b : Char} (hs : s.data.head? = some a)
    (ht : t.data.head? = some b) (hab : a ≠ b) : s ≠ t := by
  intro h
  rw [h, ht] at hs
  exact hab (by simpa using hs.symm)

theorem lineOf_head (nk : Finset String) (i : CatalogItem) :
    (lineOf nk i).data.head? = some '•' := by
  unfold lineOf
  exact head_append (head_append (head_append (head_append (head_append rfl))))

theorem headerOf_head (t : String) : (headerOf t).data.head? = some '#' := by
  unfold headerOf
  exact head_append (head_append rfl)

theorem lineOf_ne_empty (nk : Finset String) (i : CatalogItem) : lineOf nk i ≠ "" := by
  intro h
  have := lineOf_head nk i
  rw [h] at this
  cases this

theorem hasInk_lineOf (nk : Finset String) (i : CatalogItem) : hasInk (lineOf nk i) :=
  hasInk_of_head (lineOf_head nk i) (by decide)

theorem hasInk_headerOf (t : String) : hasInk (headerOf t) :=
  hasInk_of_head (headerOf_head t) (by decide)

theorem lineOf_ne_headerOf (nk : Finset String) (i : CatalogItem) (t : String) :
    lineOf nk i ≠ headerOf t :=
  ne_of_heads (lineOf_head nk i) (headerOf_head t) (by decide)

theorem joinS_append (a b : List String) : joinS (a ++ b) = joinS a ++ joinS b := by
  induction a with
  | nil => simp [joinS]
  | cons s ss ih => simp [joinS, ih, String.append_assoc]

/-- Claim C3 (corrected): the delta computed by both triggers equals the
set difference current minus previous when previous is nonempty and the
empty set when previous is empty; the identities diff(S, empty) = empty
and diff(S, S) = empty hold for every S, and diff(S with x inserted, S)
is the singleton of x for x outside S PROVIDED S is nonempty (for S
empty the empty-previous rule makes the delta empty instead, see the
counterexample). -/
theorem computeDelta_spec (S prev current : Finset String) (x : String) :
    (prev.Nonempty → computeDelta prev current = current \ prev)
    ∧ computeDelta ∅ current = ∅
    ∧ computeDelta S S = ∅
    ∧ (x ∉ S → S.Nonempty → computeDelta S (insert x S) = {x}) := by
  refine ⟨fun h => if_pos h, ?_, ?_, fun hx hS => ?_⟩
  · rw [computeDelta, if_neg Finset.not_nonempty_empty]
  · rcases S.eq_empty_or_nonempty with h | h
    · subst h
      rw [computeDelta, if_neg Finset.not_nonempty_empty]
    · rw [computeDelta, if_pos h, Finset.sdiff_self]
  · rw [computeDelta, if_pos hS, Finset.insert_sdiff_cancel hx]

/-- Witness for computeDelta_spec at a concrete input. -/
theorem computeDelta_spec_witness :
    (({"b"} : Finset String).Nonempty ∧ "a" ∉ ({"b"} : Finset String))
    ∧ computeDelta {"b"} (insert "a" {"b"}) = {"a"} :=
  ⟨⟨by decide, by decide⟩,
    (computeDelta_spec {"b"} {"b"} (insert "a" {"b"}) "a").2.2.2 (by decide) (by decide)⟩

/-- Claim C3 counterexample: at S = empty the claimed identity
diff(S with x inserted, S) = singleton x fails on the code, because the
empty-previous rule returns the empty delta; concretely the delta of
(singleton a, empty) is empty, not singleton a. -/
theorem computeDelta_cold_start_cex :
    "a" ∉ (∅ : Finset String)
    ∧ computeDelta ∅ (insert "a" (∅ : Finset String)) = ∅
    ∧ computeDelta ∅ (insert "a" (∅ : Finset String)) ≠ {"a"} :=
  ⟨by decide, by decide, by decide⟩

/-- Claim C7 (confirmed): in a rendered category list the line of an item
carries the new-item marker exactly when the key of the item belongs to
the delta set handed to post_markdown_list for the cycle: the marked form
appears iff the key is in the delta, and the unmarked form appears iff it
is not. -/
theorem line_marker_iff (new_items : Finset String) (i : CatalogItem) :
    (lineOf new_items i
        = "• " ++ "🆕 " ++ i.title ++ " (" ++ i.year ++ ")\n" ↔ i.key ∈ new_items)
    ∧ (lineOf new_items i
        = "• " ++ i.title ++ " (" ++ i.year ++ ")\n" ↔ i.key ∉ new_items) := by
  by_cases h : i.key ∈ new_items
  · refine ⟨iff_of_true ?_ h, iff_of_false ?_ (by simpa using h)⟩
    · rw [lineOf, markerOf, if_pos h]
    · rw [lineOf, markerOf, if_pos h]
      intro heq
      have hl := congrArg String.length heq
      simp only [String.length_append] at hl
      have h2 : ("🆕 " : String).length = 2 := by decide
      have h0 : ("• " : String).length = 2 := by decide
      omega
  · refine ⟨iff_of_false ?_ h, iff_of_true ?_ h⟩
    · rw [lineOf, markerOf, if_neg h]
      intro heq
      have hl := congrArg String.length heq
      simp only [String.length_append] at hl
      have h2 : ("🆕 " : String).length = 2 := by decide
      have h0 : ("" : String).length = 0 := by decide
      omega
    · rw [lineOf, markerOf, if_neg h]
      apply String.ext
      simp [String.data_append]

theorem goodCurS_line (hdr : String) (nk : Finset String) (i : CatalogItem) :
    goodCurS hdr (lineOf nk i) :=
  ⟨hasInk_lineOf nk i, Or.inl (lineOf_head nk i)⟩

theorem goodCurS_append (hdr cur l : String) (hink : hasInk hdr)
    (hg : cur = hdr ∨ goodCurS hdr cur) (hl : l ≠ "") : goodCurS hdr (cur ++ l) := by
  have hllen : 0 < l.length := length_pos_of_ne_empty hl
  rcases hg with rfl | ⟨hi, hd⟩
  · refine ⟨hasInk_append_left l hink, Or.inr ?_⟩
    rw [String.length_append]
    omega
  · refine ⟨hasInk_append_left l hi, ?_⟩
    rcases hd with hd | hd
    · exact Or.inl (head_append hd)
    · refine Or.inr ?_
      rw [String.length_append]
      omega

theorem goodCurS_ne_hdr {hdr cur : String} (hhdr : hdr.data.head? = some '#')
    (h : goodCurS hdr cur) : cur ≠ hdr := by
  rcases h.2 with hd | hd
  · exact ne_of_heads hd hhdr (by decide)
  · intro he
    rw [he] at hd
    omega

theorem chunkLines_nil_strict (hdr cur : String) (hhdr : hdr.data.head? = some '#')
    (h : goodCurS hdr cur) : chunkLines hdr cur [] = [cur] := by
  simp only [chunkLines]
  rw [if_pos ⟨pyStrip_ne_empty h.1, goodCurS_ne_hdr hhdr h⟩]

theorem joinS_map_joinS (gs : List (List String)) : joinS (gs.map joinS) = joinS gs.flatten := by
  induction gs with
  | nil => rfl
  | cons g gs ih => simp [joinS, List.flatten_cons, joinS_append, ih]

theorem joinS_assemble (cur : String) (gs : List (List String)) (h : gs ≠ []) :
    joinS (assemble cur gs) = cur ++ joinS gs.flatten := by
  cases gs with
  | nil => cases h rfl
  | cons g gs2 =>
    simp [assemble, joinS, joinS_map_joinS, List.flatten_cons, joinS_append,
      String.append_assoc]

theorem chunk_strict (hdr : String) (hhdr : hdr.data.head? = some '#') :
    ∀ (lines : List String) (cur : String), goodCurS hdr cur →
    (∀ l ∈ lines, l.data.head? = some '•') →
    ∃ gs : List (List String), gs ≠ [] ∧ gs.flatten = lines ∧ (∀ g ∈ gs.tail, g ≠ []) ∧
      chunkLines hdr cur lines = assemble cur gs := by
  have hink : hasInk hdr := hasInk_of_head hhdr (by decide)
  intro lines
  induction lines with
  | nil =>
    intro cur hcur _
    refine ⟨[[]], by simp, by simp, by simp, ?_⟩
    rw [chunkLines_nil_strict hdr cur hhdr hcur]
    simp [assemble, joinS]
  | cons l ls ih =>
    intro cur hcur hl
    have hlhead : l.data.head? = some '•' := hl l (List.mem_cons_self l ls)
    have hlrest : ∀ x ∈ ls, x.data.head? = some '•' :=
      fun x hx => hl x (List.mem_cons_of_mem l hx)
    have hlne : l ≠ "" := by
      intro h
      rw [h] at hlhead
      cases hlhead
    by_cases hflush : (cur ++ l).length > 1900
    · have hgl : goodCurS hdr l := ⟨hasInk_of_head hlhead (by decide), Or.inl hlhead⟩
      obtain ⟨gs, hne, hflat, htail, heq⟩ := ih l hgl hlrest
      cases gs with
      | nil => cases hne rfl
      | cons g gs2 =>
        refine ⟨[] :: (l :: g) :: gs2, by simp, ?_, ?_, ?_⟩
        · simp only [List.flatten_cons, List.nil_append, List.cons_append]
          simp only [List.flatten_cons] at hflat
          rw [hflat]
        · intro g2 hg2
          rcases List.mem_cons.mp hg2 with h | h
          · subst h; simp
          · exact htail g2 h
        · simp only [chunkLines]
          rw [if_pos hflush, heq]
          simp [assemble, joinS]
    · have hga : goodCurS hdr (cur ++ l) :=
        goodCurS_append hdr cur l hink (Or.inr hcur) hlne
      obtain ⟨gs, hne, hflat, htail, heq⟩ := ih (cur ++ l) hga hlrest
      cases gs with
      | nil => cases hne rfl
      | cons g gs2 =>
        refine ⟨(l :: g) :: gs2, by simp, ?_, ?_, ?_⟩
        · simp only [List.flatten_cons, List.cons_append]
          simp only [List.flatten_cons] at hflat
          rw [hflat]
        · intro g2 hg2
          exact htail g2 hg2
        · simp only [chunkLines]
          rw [if_neg hflush, heq]
          simp [assemble, joinS, String.append_assoc]

theorem chunk_top (hdr : String) (hhdr : hdr.data.head? = some '#')
    (lines : List String) (hne : lines ≠ [])
    (hl : ∀ l ∈ lines, l.data.head? = some '•') :
    ∃ gs : List (List String), gs ≠ [] ∧ gs.flatten = lines ∧ (∀ g ∈ gs.tail, g ≠ []) ∧
      chunkLines hdr hdr lines = assemble hdr gs := by
  have hink : hasInk hdr := hasInk_of_head hhdr (by decide)
  cases lines with
  | nil => cases hne rfl
  | cons l ls =>
    have hlhead : l.data.head? = some '•' := hl l (List.mem_cons_self l ls)
    have hlrest : ∀ x ∈ ls, x.data.head? = some '•' :=
      fun x hx => hl x (List.mem_cons_of_mem l hx)
    have hlne : l ≠ "" := by
      intro h
      rw [h] at hlhead
      cases hlhead
    by_cases hflush : (hdr ++ l).length > 1900
    · have hgl : goodCurS hdr l := ⟨hasInk_of_head hlhead (by decide), Or.inl hlhead⟩
      obtain ⟨gs, hgne, hflat, htail, heq⟩ := chunk_strict hdr hhdr ls l hgl hlrest
      cases gs with
      | nil => cases hgne rfl
      | cons g gs2 =>
        refine ⟨[] :: (l :: g) :: gs2, by simp, ?_, ?_, ?_⟩
        · simp only [List.flatten_cons, List.nil_append, List.cons_append]
          simp only [List.flatten_cons] at hflat
          rw [hflat]
        · intro g2 hg2
          rcases List.mem_cons.mp hg2 with h | h
          · subst h; simp
          · exact htail g2 h
        · simp only [chunkLines]
          rw [if_pos hflush, heq]
          simp [assemble, joinS]
    · have hga : goodCurS hdr (hdr ++ l) :=
        goodCurS_append hdr hdr l hink (Or.inl rfl) hlne
      obtain ⟨gs, hgne, hflat, htail, heq⟩ := chunk_strict hdr hhdr ls (hdr ++ l) hga hlrest
      cases gs with
      | nil => cases hgne rfl
      | cons g gs2 =>
        refine ⟨(l :: g) :: gs2, by simp, ?_, ?_, ?_⟩
        · simp only [List.flatten_cons, List.cons_append]
          simp only [List.flatten_cons] at hflat
          rw [hflat]
        · intro g2 hg2
          exact htail g2 hg2
        · simp only [chunkLines]
          rw [if_neg hflush, heq]
          simp [assemble, joinS, String.append_assoc]

theorem chunkLines_le (hdr : String) :
    ∀ (lines : List String) (cur : String), cur.length ≤ 1900 →
    (∀ l ∈ lines, l.length ≤ 1900) →
    ∀ b ∈ chunkLines hdr cur lines, b.length ≤ 1900 := by
  intro lines
  induction lines with
  | nil =>
    intro cur hcur _ b hb
    simp only [chunkLines] at hb
    split at hb
    · rcases List.mem_singleton.mp hb with rfl
      exact hcur
    · cases hb
  | cons l ls ih =>
    intro cur hcur hl b hb
    have hlen : l.length ≤ 1900 := hl l (List.mem_cons_self l ls)
    have hrest : ∀ x ∈ ls, x.length ≤ 1900 := fun x hx => hl x (List.mem_cons_of_mem l hx)
    simp only [chunkLines] at hb
    split at hb
    · rcases List.mem_cons.mp hb with rfl | h2
      · exact hcur
      · exact ih l hlen hrest b h2
    · rename_i hle
      have : (cur ++ l).length ≤ 1900 := by omega
      exact ih (cur ++ l) this hrest b hb

/-- Claim C2 (corrected): whenever the section heading and every rendered
item line fit within the 1900-unit soft cap, every block the renderer
emits measures at most the 2000-unit transport hard limit (indeed at most
1900), and no rendered item line is ever split across two blocks: the
emitted block list reassembles from whole consecutive line groups, the
heading prefixing the first block.  Without the per-line bound the size
guarantee fails, see the counterexample, because a single line longer
than the cap becomes a block of its own at its full length. -/
theorem post_markdown_blocks_bounded (items : List CatalogItem) (title : String)
    (nk : Finset String)
    (hhdr : (headerOf title).length ≤ 1900)
    (hlines : ∀ i ∈ items, (lineOf nk i).length ≤ 1900) :
    (∀ b ∈ post_markdown_blocks items title nk, b.length ≤ 2000)
    ∧ (items ≠ [] → ∃ gs : List (List String),
        gs.flatten = items.map (lineOf nk)
        ∧ post_markdown_blocks items title nk = assemble (headerOf title) gs) := by
  constructor
  · intro b hb
    have hb19 : b.length ≤ 1900 := by
      refine chunkLines_le (headerOf title) (items.map (lineOf nk)) (headerOf title)
        hhdr ?_ b hb
      intro l hl
      obtain ⟨i, hi, rfl⟩ := List.mem_map.mp hl
      exact hlines i hi
    omega
  · intro hne
    obtain ⟨gs, hgne, hflat, htail, heq⟩ := chunk_top (headerOf title) (headerOf_head title)
      (items.map (lineOf nk)) (by simpa using hne)
      (fun l hl => by
        obtain ⟨i, hi, rfl⟩ := List.mem_map.mp hl
        exact lineOf_head nk i)
    exact ⟨gs, hflat, heq⟩

/-- Witness for post_markdown_blocks_bounded at a concrete input. -/
theorem post_markdown_blocks_bounded_witness :
    ((headerOf "🎬 Movies").length ≤ 1900
      ∧ (∀ i ∈ [sampleMovie], (lineOf ∅ i).length ≤ 1900))
    ∧ ((∀ b ∈ post_markdown_blocks [sampleMovie] "🎬 Movies" ∅, b.length ≤ 2000)
      ∧ ([sampleMovie] ≠ [] → ∃ gs : List (List String),
          gs.flatten = [sampleMovie].map (lineOf ∅)
          ∧ post_markdown_blocks [sampleMovie] "🎬 Movies" ∅
              = assemble (headerOf "🎬 Movies") gs)) :=
  ⟨⟨by decide, by decide⟩,
    post_markdown_blocks_bounded [sampleMovie] "🎬 Movies" ∅ (by decide) (by decide)⟩

/-- Claim C2 counterexample: for an item whose single rendered line
measures 2110 units, the renderer emits that line as a block of its own,
so a block longer than the 2000-unit hard limit is produced. -/
theorem post_markdown_blocks_overflow_cex :
    ∃ b ∈ post_markdown_blocks [bigItem] "🎬 Movies" ∅, 2000 < b.length := by
  have hm : markerOf ∅ bigItem = "" := by
    rw [markerOf, if_neg]
    simp
  have ht : longTitle.length = 2100 := List.length_replicate 2100 'a'
  have hline_len : (lineOf ∅ bigItem).length = 2110 := by
    rw [lineOf, hm]
    simp only [String.length_append]
    have h1 : ("• " : String).length = 2 := by decide
    have h2 : ("" : String).length = 0 := by decide
    have h3 : (" (" : String).length = 2 := by decide
    have h4 : (bigItem.year).length = 4 := by decide
    have h5 : (")\n" : String).length = 2 := by decide
    have h6 : (bigItem.title).length = 2100 := ht
    omega
  have hflush : (headerOf "🎬 Movies" ++ lineOf ∅ bigItem).length > 1900 := by
    rw [String.length_append, hline_len]
    omega
  have hblocks : post_markdown_blocks [bigItem] "🎬 Movies" ∅
      = [headerOf "🎬 Movies", lineOf ∅ bigItem] := by
    rw [post_markdown_blocks]
    simp only [List.map_cons, List.map_nil]
    simp only [chunkLines]
    rw [if_pos hflush,
      if_pos ⟨pyStrip_ne_empty (hasInk_lineOf ∅ bigItem),
        goodCurS_ne_hdr (headerOf_head "🎬 Movies") (goodCurS_line (headerOf "🎬 Movies") ∅ bigItem)⟩]
  refine ⟨lineOf ∅ bigItem, ?_, ?_⟩
  · rw [hblocks]
    simp
  · rw [hline_len]
    omega

/-- Claim C6 (confirmed): for an item list of one category, the renderer
first applies the stable case-insensitive sort by title; concatenating
every emitted block and peeling the single section heading off the front
reproduces exactly the rendered line of every item, each exactly once, in
that sorted order: the concatenation of the blocks equals the heading
followed by the concatenation of the per-item lines of the sorted list,
which is a permutation of the input and is pairwise ordered by the
lowercased-title relation. -/
theorem category_blocks_complete (items : List CatalogItem) (title : String)
    (nk : Finset String) (hne : items ≠ []) :
    joinS (post_markdown_blocks (sortByTitle items) title nk)
      = headerOf title ++ joinS ((sortByTitle items).map (lineOf nk))
    ∧ (sortByTitle items).Perm items
    ∧ (sortByTitle items).Pairwise titleLe := by
  have hperm : (sortByTitle items).Perm items := List.perm_insertionSort titleLe items
  have hsne : sortByTitle items ≠ [] := by
    intro h
    rw [h] at hperm
    exact hne (List.Perm.eq_nil hperm.symm)
  refine ⟨?_, hperm, List.sorted_insertionSort titleLe items⟩
  obtain ⟨gs, hgne, hflat, htail, heq⟩ := chunk_top (headerOf title) (headerOf_head title)
    ((sortByTitle items).map (lineOf nk)) (by simpa using hsne)
    (fun l hl => by
      obtain ⟨i, hi, rfl⟩ := List.mem_map.mp hl
      exact lineOf_head nk i)
  rw [post_markdown_blocks, heq, joinS_assemble _ _ hgne, hflat]

/-- Witness for category_blocks_complete at a concrete input. -/
theorem category_blocks_complete_witness :
    ([sampleMovie, sampleMovie2] ≠ [])
    ∧ (joinS (post_markdown_blocks (sortByTitle [sampleMovie, sampleMovie2]) "🎬 Movies" ∅)
        = headerOf "🎬 Movies"
          ++ joinS ((sortByTitle [sampleMovie, sampleMovie2]).map (lineOf ∅))
      ∧ (sortByTitle [sampleMovie, sampleMovie2]).Perm [sampleMovie, sampleMovie2]
      ∧ (sortByTitle [sampleMovie, sampleMovie2]).Pairwise titleLe) :=
  ⟨by decide, category_blocks_complete [sampleMovie, sampleMovie2] "🎬 Movies" ∅ (by decide)⟩

theorem clear_effects_eq (u : Nat) (env : Nat → OpRes) :
    ∀ (msgs : List Msg) (k : Nat),
    (clear_old_messages u env msgs k).effects
      = (msgs.filter (fun m => m.author = u)).map (fun m => Effect.deleteMsg m.id) := by
  intro msgs
  induction msgs with
  | nil => intro k; rfl
  | cons m ms ih =>
    intro k
    by_cases hm : m.author = u
    · simp only [clear_old_messages, if_pos hm, List.filter_cons]
      rw [if_pos (by simpa using hm)]
      cases henv : env k <;> simp [henv, ih, List.map_cons]
    · simp only [clear_old_messages, if_neg hm, List.filter_cons]
      rw [if_neg (by simpa using hm)]
      exact ih k

theorem clear_msgs_eq (u : Nat) (env : Nat → OpRes) :
    ∀ (msgs : List Msg) (k : Nat), (clear_old_messages u env msgs k).msgs = [] := by
  intro msgs
  induction msgs with
  | nil => intro k; rfl
  | cons m ms ih =>
    intro k
    by_cases hm : m.author = u
    · simp only [clear_old_messages, if_pos hm]
      cases henv : env k <;> simp [henv, ih]
    · simp only [clear_old_messages, if_neg hm]
      exact ih k

theorem clear_next_ge (u : Nat) (env : Nat → OpRes) :
    ∀ (msgs : List Msg) (k : Nat), k ≤ (clear_old_messages u env msgs k).next := by
  intro msgs
  induction msgs with
  | nil => intro k; exact le_refl k
  | cons m ms ih =>
    intro k
    by_cases hm : m.author = u
    · simp only [clear_old_messages, if_pos hm]
      cases henv : env k <;> simp only [henv] <;> exact le_trans (Nat.le_succ k) (ih (k + 1))
    · simp only [clear_old_messages, if_neg hm]
      exact ih k

/-- Claim C8 (confirmed): for every retained handle list and every
environment, that is under every pattern of per-delete failures (each
delete sits in a try whose except clauses only log), the clear step
issues a delete call for exactly the handles authored by the bot, in
order, none skipped because of an earlier failure, and the retained
library_messages list is empty when the step completes. -/
theorem clear_attempts_all (u : Nat) (env : Nat → OpRes) (msgs : List Msg) (k : Nat) :
    (clear_old_messages u env msgs k).effects
      = (msgs.filter (fun m => m.author = u)).map (fun m => Effect.deleteMsg m.id)
    ∧ (clear_old_messages u env msgs k).msgs = [] :=
  ⟨clear_effects_eq u env msgs k, clear_msgs_eq u env msgs k⟩

/-- Claim C10 (confirmed): the publisher never deletes a message it did
not author: every delete call the clear step issues targets the id of a
retained message whose author is the bot user; foreign handles are only
skipped, and the whole retained list is discarded regardless. -/
theorem clear_deletes_only_own (u : Nat) (env : Nat → OpRes) (msgs : List Msg)
    (k : Nat) (mid : Nat) :
    (Effect.deleteMsg mid ∈ (clear_old_messages u env msgs k).effects →
      ∃ m, m ∈ msgs ∧ m.id = mid ∧ m.author = u)
    ∧ (clear_old_messages u env msgs k).msgs = [] := by
  refine ⟨?_, clear_msgs_eq u env msgs k⟩
  intro hmem
  rw [clear_effects_eq u env msgs k] at hmem
  obtain ⟨m, hm, heq⟩ := List.mem_map.mp hmem
  have hid : m.id = mid := by
    injection heq
  obtain ⟨hmm, hma⟩ := List.mem_filter.mp hm
  exact ⟨m, hmm, hid, by simpa using hma⟩

/-- Witness for clear_deletes_only_own at a concrete input: the single
retained bot-authored message with id 7 is the source of the observed
delete call. -/
theorem clear_deletes_only_own_witness :
    (∃ m, m ∈ [(⟨7, 0⟩ : Msg)] ∧ m.id = 7 ∧ m.author = 0) :=
  (clear_deletes_only_own 0 (fun _ => OpRes.ok) [⟨7, 0⟩] 0 7).1 (by decide)

theorem pml_next_ge (u : Nat) (env : Nat → OpRes) (nk : Finset String) (hdr : String) :
    ∀ (items : List CatalogItem) (cur : String) (k : Nat),
    k ≤ (pml_loop u env nk hdr items cur k).next := by
  intro items
  induction items with
  | nil =>
    intro cur k
    simp only [pml_loop]
    by_cases h : pyStrip cur ≠ "" ∧ cur ≠ hdr
    · rw [if_pos h]
      cases henv : env k <;> simp only [henv] <;> exact Nat.le_succ k
    · rw [if_neg h]
  | cons i rest ih =>
    intro cur k
    simp only [pml_loop]
    by_cases h : (cur ++ lineOf nk i).length > 1900
    · rw [if_pos h]
      cases henv : env k <;> simp only [henv]
      · exact le_trans (Nat.le_succ k) (ih (lineOf nk i) (k + 1))
      · exact Nat.le_succ k
      · exact Nat.le_succ k
    · rw [if_neg h]
      exact ih (cur ++ lineOf nk i) k

theorem pml_msgs_ge (u : Nat) (env : Nat → OpRes) (nk : Finset String) (hdr : String) :
    ∀ (items : List CatalogItem) (cur : String) (k : Nat),
    ∀ m ∈ (pml_loop u env nk hdr items cur k).msgs, k ≤ m.id := by
  intro items
  induction items with
  | nil =>
    intro cur k m hm
    simp only [pml_loop] at hm
    by_cases h : pyStrip cur ≠ "" ∧ cur ≠ hdr
    · rw [if_pos h] at hm
      cases henv : env k <;> rw [henv] at hm
      · rcases List.mem_singleton.mp hm with rfl
        exact le_refl k
      · cases hm
      · cases hm
    · rw [if_neg h] at hm
      cases hm
  | cons i rest ih =>
    intro cur k m hm
    simp only [pml_loop] at hm
    by_cases h : (cur ++ lineOf nk i).length > 1900
    · rw [if_pos h] at hm
      cases henv : env k <;> rw [henv] at hm
      · rcases List.mem_cons.mp hm with rfl | h2
        · exact le_refl k
        · exact le_trans (Nat.le_succ k) (ih (lineOf nk i) (k + 1) m h2)
      · cases hm
      · cases hm
    · rw [if_neg h] at hm
      exact ih (cur ++ lineOf nk i) k m hm

theorem pml_raised_otherErr (u : Nat) (env : Nat → OpRes) (nk : Finset String) (hdr : String) :
    ∀ (items : List CatalogItem) (cur : String) (k : Nat),
    (pml_loop u env nk hdr items cur k).raised = true →
    ∃ j, k ≤ j ∧ j < (pml_loop u env nk hdr items cur k).next ∧ env j = OpRes.otherErr := by
  intro items
  induction items with
  | nil =>
    intro cur k hr
    simp only [pml_loop] at hr ⊢
    by_cases h : pyStrip cur ≠ "" ∧ cur ≠ hdr
    · rw [if_pos h] at hr ⊢
      cases henv : env k
      · rw [henv] at hr
        exact Bool.noConfusion hr
      · rw [henv] at hr
        exact Bool.noConfusion hr
      · exact ⟨k, le_refl k, Nat.lt_succ_self k, henv⟩
    · rw [if_neg h] at hr
      exact Bool.noConfusion hr
  | cons i rest ih =>
    intro cur k hr
    simp only [pml_loop] at hr ⊢
    by_cases h : (cur ++ lineOf nk i).length > 1900
    · rw [if_pos h] at hr ⊢
      cases henv : env k
      · rw [henv] at hr
        obtain ⟨j, hj1, hj2, hj3⟩ := ih (lineOf nk i) (k + 1) hr
        exact ⟨j, le_trans (Nat.le_succ k) hj1, hj2, hj3⟩
      · rw [henv] at hr
        exact Bool.noConfusion hr
      · exact ⟨k, le_refl k, Nat.lt_succ_self k, henv⟩
    · rw [if_neg h] at hr ⊢
      exact ih (cur ++ lineOf nk i) k hr

theorem pml_ok (u : Nat) (env : Nat → OpRes) (nk : Finset String) (hdr : String)
    (hok : ∀ j, env j = OpRes.ok) :
    ∀ (items : List CatalogItem) (cur : String) (k : Nat),
    (pml_loop u env nk hdr items cur k).effects
        = (chunkLines hdr cur (items.map (lineOf nk))).map Effect.sendText
    ∧ (pml_loop u env nk hdr items cur k).raised = false := by
  intro items
  induction items with
  | nil =>
    intro cur k
    simp only [pml_loop, List.map_nil, chunkLines]
    by_cases h : pyStrip cur ≠ "" ∧ cur ≠ hdr
    · rw [if_pos h, if_pos h, hok k]
      exact ⟨rfl, rfl⟩
    · rw [if_neg h, if_neg h]
      exact ⟨rfl, rfl⟩
  | cons i rest ih =>
    intro cur k
    simp only [pml_loop, List.map_cons, chunkLines]
    by_cases h : (cur ++ lineOf nk i).length > 1900
    · rw [if_pos h, if_pos h, hok k]
      obtain ⟨h1, h2⟩ := ih (lineOf nk i) (k + 1)
      exact ⟨by rw [List.map_cons, ← h1], h2⟩
    · rw [if_neg h, if_neg h]
      exact ih (cur ++ lineOf nk i) k

theorem update_library_empty_delta (u : Nat) (env : Nat → OpRes) (fetch : FetchResult)
    (st : BotState) (k : Nat)
    (hd : computeDelta st.last_known_content (keysOf (get_library_content fetch)) = ∅) :
    update_library u env fetch st k
      = ⟨[], ⟨keysOf (get_library_content fetch), st.library_messages⟩, k⟩ := by
  rw [update_library]
  simp only [hd]
  rw [if_neg Finset.not_nonempty_empty]

/-- Claim C4 (confirmed): a timer cycle whose computed delta is empty
issues no chat call at all (the effect list is empty, so no send and no
delete), leaves the retained PublishedMessageSet untouched, and still
replaces last_known_content with the freshly fetched key set; render and
publish run only when the delta is nonempty. -/
theorem timer_empty_delta_frame (u : Nat) (env : Nat → OpRes) (fetch : FetchResult)
    (st : BotState) (k : Nat)
    (hd : computeDelta st.last_known_content (keysOf (get_library_content fetch)) = ∅) :
    update_library u env fetch st k
      = ⟨[], ⟨keysOf (get_library_content fetch), st.library_messages⟩, k⟩ :=
  update_library_empty_delta u env fetch st k hd

/-- Witness for timer_empty_delta_frame: an unchanged one-movie catalog
makes the delta empty, and the cycle is pure frame. -/
theorem timer_empty_delta_frame_witness :
    computeDelta ({"movie_1"} : Finset String)
        (keysOf (get_library_content (FetchResult.ok [⟨1, "Beta", some 2001⟩] []))) = ∅
    ∧ update_library 0 (fun _ => OpRes.ok) (FetchResult.ok [⟨1, "Beta", some 2001⟩] [])
        ⟨{"movie_1"}, [⟨5, 0⟩]⟩ 3
      = ⟨[], ⟨keysOf (get_library_content (FetchResult.ok [⟨1, "Beta", some 2001⟩] [])),
          [⟨5, 0⟩]⟩, 3⟩ :=
  ⟨by decide,
    timer_empty_delta_frame 0 (fun _ => OpRes.ok) (FetchResult.ok [⟨1, "Beta", some 2001⟩] [])
      ⟨{"movie_1"}, [⟨5, 0⟩]⟩ 3 (by decide)⟩

/-- Claim C1 (corrected): a timer cycle whose fetch failed (yielding the
empty item list) issues no chat call and leaves the retained message
handles unchanged, but KnownState is NOT preserved: the unconditional
assignment of source line 88 replaces last_known_content with the key
set of the empty fetch result, that is the empty set. -/
theorem fetch_error_cycle (u : Nat) (env : Nat → OpRes) (fetch : FetchResult)
    (st : BotState) (k : Nat) (hf : get_library_content fetch = []) :
    (update_library u env fetch st k).effects = []
    ∧ (update_library u env fetch st k).state.last_known_content = ∅
    ∧ (update_library u env fetch st k).state.library_messages = st.library_messages := by
  have hk : keysOf (get_library_content fetch) = ∅ := by
    rw [hf]
    rfl
  have hd : computeDelta st.last_known_content (keysOf (get_library_content fetch)) = ∅ := by
    rw [hk, computeDelta]
    rcases Finset.eq_empty_or_nonempty st.last_known_content with h | h
    · rw [if_neg (by rw [h]; exact Finset.not_nonempty_empty)]
    · rw [if_pos h, Finset.empty_sdiff]
  rw [update_library_empty_delta u env fetch st k hd, hk]
  exact ⟨rfl, rfl, rfl⟩

/-- Claim C1 counterexample: with KnownState the singleton of movie_1
before the cycle and a failing fetch (empty item list), the cycle ends
with KnownState empty, so the prior key set is not preserved. -/
theorem fetch_error_clears_state_cex :
    get_library_content FetchResult.errMovies = []
    ∧ (update_library 0 (fun _ => OpRes.ok) FetchResult.errMovies
        ⟨{"movie_1"}, []⟩ 0).state.last_known_content = ∅
    ∧ ({"movie_1"} : Finset String) ≠ ∅ :=
  ⟨rfl, by decide, by decide⟩

/-- Witness for fetch_error_cycle at a concrete input. -/
theorem fetch_error_cycle_witness :
    get_library_content FetchResult.errMovies = []
    ∧ ((update_library 0 (fun _ => OpRes.ok) FetchResult.errMovies
          ⟨{"movie_1"}, [⟨4, 0⟩]⟩ 2).effects = []
      ∧ (update_library 0 (fun _ => OpRes.ok) FetchResult.errMovies
          ⟨{"movie_1"}, [⟨4, 0⟩]⟩ 2).state.last_known_content = ∅
      ∧ (update_library 0 (fun _ => OpRes.ok) FetchResult.errMovies
          ⟨{"movie_1"}, [⟨4, 0⟩]⟩ 2).state.library_messages = [⟨4, 0⟩]) :=
  ⟨rfl, fetch_error_cycle 0 (fun _ => OpRes.ok) FetchResult.errMovies
    ⟨{"movie_1"}, [⟨4, 0⟩]⟩ 2 rfl⟩

theorem listRun_msgs_ge (u : Nat) (env : Nat → OpRes) (nk : Finset String)
    (items : List CatalogItem) (title : String) (k0 : Nat) :
    ∀ m ∈ (listRun u env nk items title k0).msgs, k0 ≤ m.id := by
  rw [listRun]
  split
  · intro m hm
    cases hm
  · intro m hm
    exact pml_msgs_ge u env nk (headerOf title) items (headerOf title) k0 m hm

theorem listRun_next_ge (u : Nat) (env : Nat → OpRes) (nk : Finset String)
    (items : List CatalogItem) (title : String) (k0 : Nat) :
    k0 ≤ (listRun u env nk items title k0).next := by
  rw [listRun]
  split
  · exact le_refl k0
  · exact pml_next_ge u env nk (headerOf title) items (headerOf title) k0

theorem listRun_ok (u : Nat) (env : Nat → OpRes) (nk : Finset String)
    (items : List CatalogItem) (title : String) (k0 : Nat) (hok : ∀ j, env j = OpRes.ok) :
    (listRun u env nk items title k0).effects
        = (if items.isEmpty then []
           else (post_markdown_blocks items title nk).map Effect.sendText)
    ∧ (listRun u env nk items title k0).raised = false := by
  rw [listRun]
  split
  · exact ⟨rfl, rfl⟩
  · exact pml_ok u env nk (headerOf title) hok items (headerOf title) k0

theorem pcl_msgs_ge (u : Nat) (env : Nat → OpRes) (st : BotState)
    (content : List CatalogItem) (nk : Finset String) (k : Nat) :
    ∀ m ∈ (post_complete_library u env st content nk k).msgs, k ≤ m.id := by
  intro m hm
  have hc : k ≤ (clear_old_messages u env st.library_messages k).next :=
    clear_next_ge u env st.library_messages k
  simp only [post_complete_library] at hm
  split at hm
  · split at hm
    · rcases List.mem_cons.mp hm with rfl | h2
      · exact hc
      · have h3 := listRun_msgs_ge u env nk (moviesOf content) "🎬 Movies"
          ((clear_old_messages u env st.library_messages k).next + 1) m h2
        omega
    · rcases List.mem_cons.mp hm with rfl | h2
      · exact hc
      · rcases List.mem_append.mp h2 with h3 | h3
        · have h4 := listRun_msgs_ge u env nk (moviesOf content) "🎬 Movies"
            ((clear_old_messages u env st.library_messages k).next + 1) m h3
          omega
        · have h4 := listRun_msgs_ge u env nk (showsOf content) "📺 TV Shows"
            (listRun u env nk (moviesOf content) "🎬 Movies"
              ((clear_old_messages u env st.library_messages k).next + 1)).next m h3
          have h5 := listRun_next_ge u env nk (moviesOf content) "🎬 Movies"
            ((clear_old_messages u env st.library_messages k).next + 1)
          omega
  · cases hm
  · cases hm

theorem pcl_ok_effects (u : Nat) (env : Nat → OpRes) (st : BotState)
    (content : List CatalogItem) (nk : Finset String) (k : Nat)
    (hok : ∀ j, env j = OpRes.ok) :
    (post_complete_library u env st content nk k).effects
      = (st.library_messages.filter (fun x => x.author = u)).map
          (fun x => Effect.deleteMsg x.id)
        ++ [Effect.sendEmbed (embedDesc (moviesOf content) (showsOf content))
              (recentLines content nk)]
        ++ (if (moviesOf content).isEmpty then []
            else (post_markdown_blocks (moviesOf content) "🎬 Movies" nk).map Effect.sendText)
        ++ (if (showsOf content).isEmpty then []
            else (post_markdown_blocks (showsOf content) "📺 TV Shows" nk).map
              Effect.sendText) := by
  have hclear := clear_effects_eq u env st.library_messages k
  obtain ⟨hMfx, hMr⟩ := listRun_ok u env nk (moviesOf content) "🎬 Movies"
    ((clear_old_messages u env st.library_messages k).next + 1) hok
  obtain ⟨hSfx, hSr⟩ := listRun_ok u env nk (showsOf content) "📺 TV Shows"
    (listRun u env nk (moviesOf content) "🎬 Movies"
      ((clear_old_messages u env st.library_messages k).next + 1)).next hok
  simp only [post_complete_library]
  rw [hok (clear_old_messages u env st.library_messages k).next]
  rw [hMr]
  simp only [Bool.false_eq_true, if_false]
  rw [hclear, hMfx, hSfx]

/-- Claim C9 (confirmed): error scoping of publish is asymmetric by
exception type.  With both category partitions nonempty and the header
send succeeding: (1) the publish trace always contains the movies list
run in full, and contains the shows list run exactly when the movies run
did not re-raise, so a Forbidden failure inside the movies run, which
ends it without re-raising, still lets the shows list be posted, while a
re-raise skips it; (2) the movies run re-raises only when some call of
its range returned a non-Forbidden error; (3) if no call of its range
returned a non-Forbidden error, the movies run does not re-raise.  In
every case post_complete_library returns normally (its result type has no
exception component): the exception never escapes the publish entry
point. -/
theorem publish_error_scoping (u : Nat) (env : Nat → OpRes) (st : BotState)
    (content : List CatalogItem) (nk : Finset String) (k : Nat)
    (hm : (moviesOf content).isEmpty = false)
    (hs : (showsOf content).isEmpty = false)
    (hhdr : env (clear_old_messages u env st.library_messages k).next = OpRes.ok) :
    ((post_complete_library u env st content nk k).effects
      = (clear_old_messages u env st.library_messages k).effects
        ++ [Effect.sendEmbed (embedDesc (moviesOf content) (showsOf content))
              (recentLines content nk)]
        ++ (post_markdown_list u env (moviesOf content) "🎬 Movies" nk
              ((clear_old_messages u env st.library_messages k).next + 1)).effects
        ++ (if (post_markdown_list u env (moviesOf content) "🎬 Movies" nk
                ((clear_old_messages u env st.library_messages k).next + 1)).raised
            then []
            else (post_markdown_list u env (showsOf content) "📺 TV Shows" nk
                (post_markdown_list u env (moviesOf content) "🎬 Movies" nk
                  ((clear_old_messages u env st.library_messages k).next + 1)).next).effects))
    ∧ ((post_markdown_list u env (moviesOf content) "🎬 Movies" nk
          ((clear_old_messages u env st.library_messages k).next + 1)).raised = true →
        ∃ j, (clear_old_messages u env st.library_messages k).next + 1 ≤ j
          ∧ j < (post_markdown_list u env (moviesOf content) "🎬 Movies" nk
              ((clear_old_messages u env st.library_messages k).next + 1)).next
          ∧ env j = OpRes.otherErr)
    ∧ ((∀ j, (clear_old_messages u env st.library_messages k).next + 1 ≤ j →
          j < (post_markdown_list u env (moviesOf content) "🎬 Movies" nk
              ((clear_old_messages u env st.library_messages k).next + 1)).next →
          env j ≠ OpRes.otherErr) →
        (post_markdown_list u env (moviesOf content) "🎬 Movies" nk
          ((clear_old_messages u env st.library_messages k).next + 1)).raised = false) := by
  have hm2 : ¬((moviesOf content).isEmpty = true) := by
    rw [hm]
    exact Bool.false_ne_true
  have hs2 : ¬((showsOf content).isEmpty = true) := by
    rw [hs]
    exact Bool.false_ne_true
  refine ⟨?_, ?_, ?_⟩
  · simp only [post_complete_library, listRun, hhdr]
    rw [if_neg hm2, if_neg hs2]
    by_cases hr : (post_markdown_list u env (moviesOf content) "🎬 Movies" nk
        ((clear_old_messages u env st.library_messages k).next + 1)).raised = true
    · rw [if_pos hr, if_pos hr, List.append_nil]
    · rw [if_neg hr, if_neg hr]
  · intro hr
    exact pml_raised_otherErr u env nk (headerOf "🎬 Movies") (moviesOf content)
      (headerOf "🎬 Movies") ((clear_old_messages u env st.library_messages k).next + 1) hr
  · intro hno
    cases hb : (post_markdown_list u env (moviesOf content) "🎬 Movies" nk
        ((clear_old_messages u env st.library_messages k).next + 1)).raised
    · rfl
    · exfalso
      obtain ⟨j, h1, h2, h3⟩ := pml_raised_otherErr u env nk (headerOf "🎬 Movies")
        (moviesOf content) (headerOf "🎬 Movies")
        ((clear_old_messages u env st.library_messages k).next + 1) hb
      exact hno j h1 h2 h3

/-- Witness for publish_error_scoping at a concrete input. -/
theorem publish_error_scoping_witness :
    ((moviesOf [sampleMovie, sampleShow]).isEmpty = false
      ∧ (showsOf [sampleMovie, sampleShow]).isEmpty = false)
    ∧ (((post_complete_library 0 (fun _ => OpRes.ok) ⟨∅, []⟩
            [sampleMovie, sampleShow] ∅ 0).effects
        = (clear_old_messages 0 (fun _ => OpRes.ok) [] 0).effects
          ++ [Effect.sendEmbed
                (embedDesc (moviesOf [sampleMovie, sampleShow])
                  (showsOf [sampleMovie, sampleShow]))
                (recentLines [sampleMovie, sampleShow] ∅)]
          ++ (post_markdown_list 0 (fun _ => OpRes.ok)
                (moviesOf [sampleMovie, sampleShow]) "🎬 Movies" ∅
                ((clear_old_messages 0 (fun _ => OpRes.ok) [] 0).next + 1)).effects
          ++ (if (post_markdown_list 0 (fun _ => OpRes.ok)
                  (moviesOf [sampleMovie, sampleShow]) "🎬 Movies" ∅
                  ((clear_old_messages 0 (fun _ => OpRes.ok) [] 0).next + 1)).raised
              then []
              else (post_markdown_list 0 (fun _ => OpRes.ok)
                  (showsOf [sampleMovie, sampleShow]) "📺 TV Shows" ∅
                  (post_markdown_list 0 (fun _ => OpRes.ok)
                    (moviesOf [sampleMovie, sampleShow]) "🎬 Movies" ∅
                    ((clear_old_messages 0 (fun _ => OpRes.ok) [] 0).next + 1)).next).effects))
      ∧ ((post_markdown_list 0 (fun _ => OpRes.ok)
            (moviesOf [sampleMovie, sampleShow]) "🎬 Movies" ∅
            ((clear_old_messages 0 (fun _ => OpRes.ok) [] 0).next + 1)).raised = true →
          ∃ j, (clear_old_messages 0 (fun _ => OpRes.ok) [] 0).next + 1 ≤ j
            ∧ j < (post_markdown_list 0 (fun _ => OpRes.ok)
                (moviesOf [sampleMovie, sampleShow]) "🎬 Movies" ∅
                ((clear_old_messages 0 (fun _ => OpRes.ok) [] 0).next + 1)).next
            ∧ (fun _ => OpRes.ok) j = OpRes.otherErr)
      ∧ ((∀ j, (clear_old_messages 0 (fun _ => OpRes.ok) [] 0).next + 1 ≤ j →
            j < (post_markdown_list 0 (fun _ => OpRes.ok)
                (moviesOf [sampleMovie, sampleShow]) "🎬 Movies" ∅
                ((clear_old_messages 0 (fun _ => OpRes.ok) [] 0).next + 1)).next →
            (fun _ => OpRes.ok) j ≠ OpRes.otherErr) →
          (post_markdown_list 0 (fun _ => OpRes.ok)
            (moviesOf [sampleMovie, sampleShow]) "🎬 Movies" ∅
            ((clear_old_messages 0 (fun _ => OpRes.ok) [] 0).next + 1)).raised = false)) :=
  ⟨⟨by decide, by decide⟩,
    publish_error_scoping 0 (fun _ => OpRes.ok) ⟨∅, []⟩ [sampleMovie, sampleShow] ∅ 0
      (by decide) (by decide) rfl⟩

/-- Claim C5 (confirmed): a manual command invocation, that is a
case-insensitive match of one of the three commands on the monitored
channel from a foreign non-bot author, with the chat service accepting
every call, runs the full fetch-diff-render-publish-update sequence with
no condition on the delta (in particular also when it is empty): the
trace is exactly the acknowledgment send, then the deletes of every
retained own message followed by the fresh header and list sends, then
the edit of the acknowledgment to the completion text; KnownState is
replaced by the fetched key set, and every retained library handle is a
fresh one, distinct from the acknowledgment handle. -/
theorem manual_command_forces_full_publish (u chan : Nat) (env : Nat → OpRes)
    (fetch : FetchResult) (st : BotState) (m : Incoming) (k : Nat)
    (hok : ∀ j, env j = OpRes.ok)
    (hauthor : m.authorId ≠ u) (hbot : m.authorIsBot = false) (hchan : m.channelId = chan)
    (hcmd : pyLower m.content ∈ (["!sync", "!update", "!refresh"] : List String)) :
    (on_message u chan env fetch st m k).effects
      = Effect.sendText syncAck
        :: (((st.library_messages.filter (fun x => x.author = u)).map
              (fun x => Effect.deleteMsg x.id)
            ++ [Effect.sendEmbed
                  (embedDesc (moviesOf (get_library_content fetch))
                    (showsOf (get_library_content fetch)))
                  (recentLines (get_library_content fetch)
                    (computeDelta st.last_known_content (keysOf (get_library_content fetch))))]
            ++ (if (moviesOf (get_library_content fetch)).isEmpty then []
                else (post_markdown_blocks (moviesOf (get_library_content fetch)) "🎬 Movies"
                    (computeDelta st.last_known_content
                      (keysOf (get_library_content fetch)))).map Effect.sendText)
            ++ (if (showsOf (get_library_content fetch)).isEmpty then []
                else (post_markdown_blocks (showsOf (get_library_content fetch)) "📺 TV Shows"
                    (computeDelta st.last_known_content
                      (keysOf (get_library_content fetch)))).map Effect.sendText))
          ++ [Effect.editMsg k syncDone])
    ∧ (on_message u chan env fetch st m k).state.last_known_content
        = keysOf (get_library_content fetch)
    ∧ ∀ x ∈ (on_message u chan env fetch st m k).state.library_messages, k < x.id := by
  have hg1 : ¬(m.authorId = u ∨ m.authorIsBot = true) := by
    intro h
    rcases h with h | h
    · exact hauthor h
    · rw [hbot] at h
      exact Bool.noConfusion h
  have hg2 : ¬(m.channelId ≠ chan) := fun hne => hne hchan
  simp only [on_message]
  rw [if_neg hg1, if_neg hg2, if_pos hcmd, hok k]
  rw [hok (post_complete_library u env st (get_library_content fetch)
      (computeDelta st.last_known_content (keysOf (get_library_content fetch)))
      (k + 1)).next]
  refine ⟨?_, rfl, ?_⟩
  · rw [pcl_ok_effects u env st (get_library_content fetch)
      (computeDelta st.last_known_content (keysOf (get_library_content fetch))) (k + 1) hok]
  · intro x hx
    have h1 := pcl_msgs_ge u env st (get_library_content fetch)
      (computeDelta st.last_known_content (keysOf (get_library_content fetch))) (k + 1) x hx
    omega

/-- Witness for manual_command_forces_full_publish at a concrete input:
an uppercase command from a foreign author on the monitored channel, one
retained own message, an empty fetch, hence an empty delta, and the full
delete-then-send sequence still runs. -/
theorem manual_command_forces_full_publish_witness :
    ((1 : Nat) ≠ 0 ∧ pyLower "!SYNC" ∈ (["!sync", "!update", "!refresh"] : List String))
    ∧ ((on_message 0 5 (fun _ => OpRes.ok) (FetchResult.ok [] [])
          ⟨∅, [⟨9, 0⟩]⟩ ⟨"!SYNC", 1, false, 5⟩ 0).effects
        = Effect.sendText syncAck
          :: ((([(⟨9, 0⟩ : Msg)].filter (fun x => x.author = 0)).map
                (fun x => Effect.deleteMsg x.id)
              ++ [Effect.sendEmbed
                    (embedDesc (moviesOf (get_library_content (FetchResult.ok [] [])))
                      (showsOf (get_library_content (FetchResult.ok [] []))))
                    (recentLines (get_library_content (FetchResult.ok [] []))
                      (computeDelta ∅ (keysOf (get_library_content (FetchResult.ok [] [])))))]
              ++ (if (moviesOf (get_library_content (FetchResult.ok [] []))).isEmpty then []
                  else (post_markdown_blocks
                      (moviesOf (get_library_content (FetchResult.ok [] []))) "🎬 Movies"
                      (computeDelta ∅
                        (keysOf (get_library_content (FetchResult.ok [] []))))).map
                    Effect.sendText)
              ++ (if (showsOf (get_library_content (FetchResult.ok [] []))).isEmpty then []
                  else (post_markdown_blocks
                      (showsOf (get_library_content (FetchResult.ok [] []))) "📺 TV Shows"
                      (computeDelta ∅
                        (keysOf (get_library_content (FetchResult.ok [] []))))).map
                    Effect.sendText))
            ++ [Effect.editMsg 0 syncDone])
      ∧ (on_message 0 5 (fun _ => OpRes.ok) (FetchResult.ok [] [])
          ⟨∅, [⟨9, 0⟩]⟩ ⟨"!SYNC", 1, false, 5⟩ 0).state.last_known_content
          = keysOf (get_library_content (FetchResult.ok [] []))
      ∧ ∀ x ∈ (on_message 0 5 (fun _ => OpRes.ok) (FetchResult.ok [] [])
          ⟨∅, [⟨9, 0⟩]⟩ ⟨"!SYNC", 1, false, 5⟩ 0).state.library_messages, 0 < x.id) :=
  ⟨⟨by decide, by decide⟩,
    manual_command_forces_full_publish 0 5 (fun _ => OpRes.ok) (FetchResult.ok [] [])
      ⟨∅, [⟨9, 0⟩]⟩ ⟨"!SYNC", 1, false, 5⟩ 0 (fun _ => rfl) (by decide) rfl rfl (by decide)⟩
